import Mathlib

/-!
Shallow embedding of the selection / annotation interaction engine of
`src/QuickEditor/QuickEditor.cpp` (the Spectacle fork's quick editor).

Real-valued (`qreal`) quantities are modelled by `ℚ`; C++ `int` by `ℤ`.
`qRound` and `static_cast<int>` are modelled exactly (round half away from
zero, truncation toward zero).  Geometry follows Qt's `QRectF` conventions:
a rectangle stores `x`, `y` (top-left), `w`, `h`, with `right = x + w` and
`bottom = y + h`.
-/

namespace Spectacle

/-- Qt's `qRound` on doubles: `d >= 0 ? int(d + 0.5) : int(d - 0.5)`,
where `int(...)` truncates toward zero. -/
def qRound (q : ℚ) : ℤ :=
  if 0 ≤ q then ⌊q + 1/2⌋ else ⌈q - 1/2⌉

/-- C++ `static_cast<int>` on a double: truncation toward zero. -/
def truncInt (q : ℚ) : ℤ :=
  if 0 ≤ q then ⌊q⌋ else ⌈q⌉

theorem qRound_le (q : ℚ) : (qRound q : ℚ) ≤ q + 1/2 := by
  unfold qRound
  split
  · exact Int.floor_le _
  · have h := Int.ceil_lt_add_one (q - 1/2)
    have : (⌈q - 1/2⌉ : ℚ) < q + 1/2 := by linarith
    linarith

theorem le_qRound (q : ℚ) : q - 1/2 ≤ (qRound q : ℚ) := by
  unfold qRound
  split
  · have h := Int.lt_floor_add_one (q + 1/2)
    have h2 := Int.le_ceil (q - 1/2)
    have h3 : q - 1/2 ≤ q + 1/2 := by linarith
    have := Int.floor_le (q + 1/2)
    have hf : q + 1/2 - 1 < (⌊q + 1/2⌋ : ℚ) := by linarith
    linarith
  · exact Int.le_ceil _

theorem qRound_intCast (n : ℤ) : qRound (n : ℚ) = n := by
  unfold qRound
  split
  · have : ((n : ℚ) + 1/2) = (1/2 : ℚ) + n := by ring
    rw [this, Int.floor_add_int]
    norm_num
  · have : ((n : ℚ) - 1/2) = (-(1/2) : ℚ) + n := by ring
    rw [this, Int.ceil_add_int]
    norm_num

/-- A point with `qreal` coordinates (`QPointF`). -/
structure PointF where
  x : ℚ
  y : ℚ
deriving DecidableEq, Repr

/-- A rectangle with `qreal` coordinates (`QRectF`): top-left `(x, y)`,
size `(w, h)`; `right = x + w`, `bottom = y + h`. -/
structure RectF where
  x : ℚ
  y : ℚ
  w : ℚ
  h : ℚ
deriving DecidableEq, Repr

namespace RectF

def right (r : RectF) : ℚ := r.x + r.w
def bottom (r : RectF) : ℚ := r.y + r.h

/-- `QRectF::isEmpty`: true iff width or height is not positive. -/
def isEmptyF (r : RectF) : Prop := r.w ≤ 0 ∨ r.h ≤ 0

instance (r : RectF) : Decidable r.isEmptyF := by
  unfold isEmptyF; infer_instance

/-- `QRectF::contains(QPointF)`: closed on all four edges; a rectangle with
zero width or zero height contains no point. -/
def containsP (r : RectF) (p : PointF) : Prop :=
  (if r.w < 0 then r.x + r.w else r.x) ≠ (if r.w < 0 then r.x else r.x + r.w) ∧
  (if r.w < 0 then r.x + r.w else r.x) ≤ p.x ∧
  p.x ≤ (if r.w < 0 then r.x else r.x + r.w) ∧
  (if r.h < 0 then r.y + r.h else r.y) ≠ (if r.h < 0 then r.y else r.y + r.h) ∧
  (if r.h < 0 then r.y + r.h else r.y) ≤ p.y ∧
  p.y ≤ (if r.h < 0 then r.y else r.y + r.h)

instance (r : RectF) (p : PointF) : Decidable (r.containsP p) := by
  unfold containsP; infer_instance

/-- `QRectF::normalized`: flip a negative width or height. -/
def normalized (r : RectF) : RectF :=
  let r1 := if r.w < 0 then { r with x := r.x + r.w, w := -r.w } else r
  if r1.h < 0 then { r1 with y := r1.y + r1.h, h := -r1.h } else r1

def moveTop (r : RectF) (v : ℚ) : RectF := { r with y := v }
def moveLeft (r : RectF) (v : ℚ) : RectF := { r with x := v }
def moveTo (r : RectF) (px py : ℚ) : RectF := { r with x := px, y := py }
def setBottom (r : RectF) (v : ℚ) : RectF := { r with h := v - r.y }
def setRight (r : RectF) (v : ℚ) : RectF := { r with w := v - r.x }
def setLeft (r : RectF) (v : ℚ) : RectF := { r with x := v, w := r.w - (v - r.x) }
def setTop (r : RectF) (v : ℚ) : RectF := { r with y := v, h := r.h - (v - r.y) }
def setWidth (r : RectF) (v : ℚ) : RectF := { r with w := v }
def setHeight (r : RectF) (v : ℚ) : RectF := { r with h := v }

theorem normalized_of_nonneg {r : RectF} (hw : 0 ≤ r.w) (hh : 0 ≤ r.h) :
    r.normalized = r := by
  simp only [normalized, if_neg (not_lt.mpr hw), if_neg (not_lt.mpr hh)]

end RectF

/-! Constants from `QuickEditor.cpp`. -/

/-- Qt's `qMin`: `(a < b) ? a : b`. -/
def qMin (a b : ℚ) : ℚ := if a < b then a else b

def mouseAreaSize : ℚ := 20
def magnifierLargeStep : ℤ := 15
def magZoom : ℤ := 5
def magPixels : ℤ := 16
def magOffset : ℤ := 32

/-- `QuickEditor::MouseState`: the result of the hit-test classifier, plus
the interaction-mode tag stored in `mMouseDragState`. -/
inductive MouseState where
  | None
  | Inside
  | Outside
  | TopLeft
  | Top
  | TopRight
  | Right
  | BottomRight
  | Bottom
  | BottomLeft
  | Left
deriving DecidableEq, Repr

/-- Vertical edge tolerance used by `QuickEditor::mouseLocation`:
`qMin(mouseAreaSize, mSelection.height() / 2)`. -/
def verSize (sel : RectF) : ℚ := qMin mouseAreaSize (sel.h / 2)

/-- Horizontal edge tolerance used by `QuickEditor::mouseLocation`:
`qMin(mouseAreaSize, mSelection.width() / 2)`. -/
def horSize (sel : RectF) : ℚ := qMin mouseAreaSize (sel.w / 2)

/-- The `withinThreshold` lambda in `QuickEditor::mouseLocation`:
`offset <= size && offset >= 0`. -/
def withinThreshold (offset size : ℚ) : Bool :=
  decide (offset ≤ size) && decide (0 ≤ offset)

/-- `QuickEditor::mouseLocation`: classify a pointer position against the
current selection rectangle. -/
def mouseLocation (sel : RectF) (pos : PointF) : MouseState :=
  if sel.containsP pos then
    let withinTopEdge := withinThreshold (pos.y - sel.y) (verSize sel)
    let withinRightEdge := withinThreshold (sel.right - pos.x) (horSize sel)
    let withinBottomEdge := !withinTopEdge && withinThreshold (sel.bottom - pos.y) (verSize sel)
    let withinLeftEdge := !withinRightEdge && withinThreshold (pos.x - sel.x) (horSize sel)
    if withinTopEdge then
      if withinRightEdge then .TopRight
      else if withinLeftEdge then .TopLeft
      else .Top
    else if withinBottomEdge then
      if withinRightEdge then .BottomRight
      else if withinLeftEdge then .BottomLeft
      else .Bottom
    else if withinRightEdge then .Right
    else if withinLeftEdge then .Left
    else .Inside
  else .Outside

example : mouseLocation ⟨0, 0, 100, 100⟩ ⟨5, 5⟩ = .TopLeft := by
  norm_num [mouseLocation, RectF.containsP, verSize, horSize, withinThreshold,
    mouseAreaSize, qMin, RectF.right, RectF.bottom]

example : mouseLocation ⟨0, 0, 100, 100⟩ ⟨50, 50⟩ = .Inside := by
  norm_num [mouseLocation, RectF.containsP, verSize, horSize, withinThreshold,
    mouseAreaSize, qMin, RectF.right, RectF.bottom]

example : mouseLocation ⟨0, 0, 100, 100⟩ ⟨-1, 50⟩ = .Outside := by
  norm_num [mouseLocation, RectF.containsP, verSize, horSize, withinThreshold,
    mouseAreaSize, qMin, RectF.right, RectF.bottom]

example : mouseLocation ⟨0, 0, 100, 100⟩ ⟨99, 50⟩ = .Right := by
  norm_num [mouseLocation, RectF.containsP, verSize, horSize, withinThreshold,
    mouseAreaSize, qMin, RectF.right, RectF.bottom]

/-!
Bounds utilities (`QuickEditor::boundsLeft` / `boundsRight` / `boundsUp` /
`boundsDown`).  Each takes the proposed top-left coordinate on one axis (an
`int`) and the flag telling whether the call comes from a mouse drag; when it
does, a clamped overflow is also fed back into the drag anchor `mStartPos`.
They return the clamped coordinate together with the resulting anchor
coordinate on that axis.  `realMax` is the value `qRound((width() -
mSelection.width()) * devicePixelRatioF())` (resp. height) computed at the
call sites of `boundsRight` / `boundsDown`.
-/

def boundsLeft (dprI startX : ℚ) (newTopLeftX : ℤ) (mouse : Bool) : ℤ × ℚ :=
  if newTopLeftX < 0 then
    (0, if mouse then startX + newTopLeftX * dprI else startX)
  else (newTopLeftX, startX)

def boundsRight (dprI : ℚ) (realMaxX : ℤ) (startX : ℚ) (newTopLeftX : ℤ) (mouse : Bool) : ℤ × ℚ :=
  let xOffset := newTopLeftX - realMaxX
  if 0 < xOffset then
    (realMaxX, if mouse then startX + xOffset * dprI else startX)
  else (newTopLeftX, startX)

def boundsUp (dprI startY : ℚ) (newTopLeftY : ℤ) (mouse : Bool) : ℤ × ℚ :=
  if newTopLeftY < 0 then
    (0, if mouse then startY + newTopLeftY * dprI else startY)
  else (newTopLeftY, startY)

def boundsDown (dprI : ℚ) (realMaxY : ℤ) (startY : ℚ) (newTopLeftY : ℤ) (mouse : Bool) : ℤ × ℚ :=
  let yOffset := newTopLeftY - realMaxY
  if 0 < yOffset then
    (realMaxY, if mouse then startY + yOffset * dprI else startY)
  else (newTopLeftY, startY)

/-- `qRound((width() - mSelection.width()) * devicePixelRatioF())`: the max
device-space X coordinate of the selection's top-left point. -/
def realMaxX (widgetW : ℤ) (dpr : ℚ) (sel : RectF) : ℤ :=
  qRound ((widgetW - sel.w) * dpr)

/-- `qRound((height() - mSelection.height()) * devicePixelRatioF())`. -/
def realMaxY (widgetH : ℤ) (dpr : ℚ) (sel : RectF) : ℤ :=
  qRound ((widgetH - sel.h) * dpr)

/-!
`QuickEditor::mouseMoveEvent`, geometry update rules per interaction mode.
`startPos` is `mStartPos` (the drag anchor set at press time), `pos` the
current pointer position, `dprI` the inverse device pixel ratio.
-/

/-- Move rule for `MouseState::Outside` (creating a new selection):
`mSelection.setRect(qMin(pos.x, start.x), qMin(pos.y, start.y),
qAbs(pos.x - start.x) + dprI, qAbs(pos.y - start.y) + dprI)`. -/
def moveOutside (dprI : ℚ) (startPos pos : PointF) : RectF :=
  { x := qMin pos.x startPos.x
    y := qMin pos.y startPos.y
    w := |pos.x - startPos.x| + dprI
    h := |pos.y - startPos.y| + dprI }

/-- Move rule for the four corner-handle states (`TopLeft`, `TopRight`,
`BottomRight`, `BottomLeft`);  the anchor `startPos` is the opposite corner
fixed at press time. -/
def moveCorner (dprI : ℚ) (startPos pos : PointF) : RectF :=
  let afterX : Bool := decide (startPos.x ≤ pos.x)
  let afterY : Bool := decide (startPos.y ≤ pos.y)
  { x := if afterX then startPos.x else pos.x
    y := if afterY then startPos.y else pos.y
    w := |pos.x - startPos.x| + (if afterX then dprI else 0)
    h := |pos.y - startPos.y| + (if afterY then dprI else 0) }

/-- Move rule for `Top`/`Bottom` edge handles: only the vertical axis follows
the pointer. -/
def moveTopBottom (dprI : ℚ) (sel : RectF) (startPos pos : PointF) : RectF :=
  let afterY : Bool := decide (startPos.y ≤ pos.y)
  { x := sel.x
    y := if afterY then startPos.y else pos.y
    w := sel.w
    h := |pos.y - startPos.y| + (if afterY then dprI else 0) }

/-- Move rule for `Right`/`Left` edge handles: only the horizontal axis
follows the pointer. -/
def moveRightLeft (dprI : ℚ) (sel : RectF) (startPos pos : PointF) : RectF :=
  let afterX : Bool := decide (startPos.x ≤ pos.x)
  { x := if afterX then startPos.x else pos.x
    y := sel.y
    w := |pos.x - startPos.x| + (if afterX then dprI else 0)
    h := sel.h }

/-- Move rule for `MouseState::Inside` (dragging the whole selection).
`newTopLeft = ((pos - mStartPos + mInitialTopLeft) * dpr).toPoint()`, then
each axis is clamped (`boundsLeft`, and when the result is nonzero
`boundsRight`; same vertically), and the selection is moved to the clamped
point scaled back by `dprI`.  Returns the new selection and the updated
anchor `mStartPos`. -/
def moveInside (widgetW widgetH : ℤ) (dpr : ℚ) (sel : RectF)
    (startPos initialTopLeft pos : PointF) : RectF × PointF :=
  let dprI := 1 / dpr
  let ntlX : ℤ := qRound ((pos.x - startPos.x + initialTopLeft.x) * dpr)
  let ntlY : ℤ := qRound ((pos.y - startPos.y + initialTopLeft.y) * dpr)
  let s1 := boundsLeft dprI startPos.x ntlX true
  let s2 := if s1.1 ≠ 0 then boundsRight dprI (realMaxX widgetW dpr sel) s1.2 s1.1 true else s1
  let t1 := boundsUp dprI startPos.y ntlY true
  let t2 := if t1.1 ≠ 0 then boundsDown dprI (realMaxY widgetH dpr sel) t1.2 t1.1 true else t1
  (sel.moveTo (s2.1 * dprI) (t2.1 * dprI), ⟨s2.2, t2.2⟩)

/-- Device-space containment of a selection rectangle in the canvas bounds
`[0,0]-[W,H]` (the property claimed by the specification). -/
def deviceContained (dpr : ℚ) (W H : ℤ) (r : RectF) : Prop :=
  0 ≤ r.x * dpr ∧ 0 ≤ r.y * dpr ∧ (r.x + r.w) * dpr ≤ W ∧ (r.y + r.h) * dpr ≤ H

instance (dpr : ℚ) (W H : ℤ) (r : RectF) : Decidable (deviceContained dpr W H r) := by
  unfold deviceContained; infer_instance

/-!
`QuickEditor::keyPressEvent`, arrow-key branches.  `step` is
`shiftPressed ? 1 : magnifierLargeStep` (a `qreal`), applied to the
device-space coordinate before clamping; the Alt modifier resizes the
corresponding edge instead of moving the rectangle.  When
`mDisableArrowKeys` is set (a pointer drag is in progress) the selection is
left untouched.
-/

inductive ArrowKey where
  | up
  | down
  | left
  | right
deriving DecidableEq, Repr

def keyArrow (widgetW widgetH : ℤ) (dpr : ℚ) (disabled shift alt : Bool)
    (k : ArrowKey) (sel : RectF) : RectF :=
  let dprI := 1 / dpr
  let step : ℚ := if shift then 1 else (magnifierLargeStep : ℚ)
  match k with
  | .up =>
    if disabled then sel
    else
      let newPos := (boundsUp dprI 0 (qRound (sel.y * dpr - step)) false).1
      if alt then (sel.setBottom (dprI * newPos + sel.h)).normalized
      else sel.moveTop (dprI * newPos)
  | .right =>
    if disabled then sel
    else
      let newPos :=
        (boundsRight dprI (realMaxX widgetW dpr sel) 0 (qRound (sel.x * dpr + step)) false).1
      if alt then sel.setRight (dprI * newPos + sel.w)
      else sel.moveLeft (dprI * newPos)
  | .down =>
    if disabled then sel
    else
      let newPos :=
        (boundsDown dprI (realMaxY widgetH dpr sel) 0 (qRound (sel.y * dpr + step)) false).1
      if alt then sel.setBottom (dprI * newPos + sel.h)
      else sel.moveTop (dprI * newPos)
  | .left =>
    if disabled then sel
    else
      let newPos := (boundsLeft dprI 0 (qRound (sel.x * dpr - step)) false).1
      if alt then (sel.setRight (dprI * newPos + sel.w)).normalized
      else sel.moveLeft (dprI * newPos)

/-!
Completion and cancellation (`QuickEditor::acceptSelection`,
`keyPressEvent`, `mouseDoubleClickEvent`, `mouseReleaseEvent`).
`acceptSelection` refuses to do anything when `mSelection.isEmpty()`;
otherwise it rounds the selection to device pixels, persists it as the
remembered crop region and emits `grabDone` with that region.
-/

/-- An integer rectangle (`QRect`), used for the scaled crop region. -/
structure RectI where
  x : ℤ
  y : ℤ
  w : ℤ
  h : ℤ
deriving DecidableEq, Repr

/-- The `scaledCropRegion` computed inside `QuickEditor::acceptSelection`. -/
def scaledCropRegion (dpr : ℚ) (sel : RectF) : RectI :=
  { x := qRound (sel.x * dpr)
    y := qRound (sel.y * dpr)
    w := qRound (sel.w * dpr)
    h := qRound (sel.h * dpr) }

/-- `QuickEditor::acceptSelection`: `some crop` means the crop region was
persisted via `setCropRegion` and `grabDone` was emitted for it; `none`
means the call did nothing (empty selection). -/
def acceptSelection (dpr : ℚ) (sel : RectF) : Option RectI :=
  if ¬ sel.isEmptyF then some (scaledCropRegion dpr sel) else none

/-- A terminal signal of the session: `grabDone` with the crop region, or
`grabCancelled`. -/
inductive TerminalSignal where
  | done (crop : RectI)
  | cancelled
deriving DecidableEq, Repr

/-- Keys relevant to terminal signals in `QuickEditor::keyPressEvent`. -/
inductive EditorKey where
  | escape
  | enter
  | arrow (k : ArrowKey)
deriving DecidableEq, Repr

/-- The terminal signal produced by `QuickEditor::keyPressEvent`: Escape
emits `grabCancelled`; Return/Enter calls `acceptSelection`; arrow keys
never terminate the session. -/
def keySignal (dpr : ℚ) (sel : RectF) (k : EditorKey) : Option TerminalSignal :=
  match k with
  | .escape => some .cancelled
  | .enter => (acceptSelection dpr sel).map .done
  | .arrow _ => none

/-- `QuickEditor::mouseDoubleClickEvent` (left button): accepts only when
the click position lies inside the selection. -/
def doubleClickSignal (dpr : ℚ) (sel : RectF) (pos : PointF) : Option TerminalSignal :=
  if sel.containsP pos then (acceptSelection dpr sel).map .done else none

/-!
The annotation engine and the shared editor state
(`mEditToolState`, `mLine`, `mRect`, `history`, `mPixmap`, and the deferred
re-arm scheduled by `QuickEditor::undo` via `QTimer::singleShot`).
The raster type is abstract; `drawShape` abstracts the compositing performed
by `QuickEditor::drawElements(painter, true)` onto `mPixmap` (it may depend
on the active tool, the pending line and the pending rectangle).
-/

/-- `QuickEditor::EditToolState`. -/
inductive EditToolState where
  | NoEdit
  | DrawLine
  | DrawArrow
  | DrawRect
  | DrawCircle
  | DrawText
deriving DecidableEq, Repr

/-- `QLineF`: the pending two-point segment `mLine`. -/
structure LineF where
  p1 : PointF
  p2 : PointF
deriving DecidableEq, Repr

/-- The part of `QuickEditor`'s state driven by pointer events, the
annotation engine and undo. -/
structure EditorState (Raster : Type) where
  pixmap : Raster
  history : List Raster
  tool : EditToolState
  pendingReArm : Option EditToolState
  sel : RectF
  dragState : MouseState
  startPos : PointF
  initialTopLeft : PointF
  line : LineF
  shapeRect : RectF
  disableArrowKeys : Bool

/-- `QuickEditor::mousePressEvent` (left button).  With an active edit tool
the press starts a pending shape and clears the drag state; otherwise it
classifies the press position and records the drag anchor. -/
def pressLeft {Raster : Type} (pos : PointF) (st : EditorState Raster) :
    EditorState Raster :=
  if st.tool ≠ .NoEdit then
    match st.tool with
    | .DrawLine | .DrawArrow =>
      { st with line := ⟨pos, pos⟩, dragState := .None }
    | _ =>
      { st with shapeRect := (st.shapeRect.setLeft pos.x).setTop pos.y, dragState := .None }
  else
    let ms := mouseLocation st.sel pos
    let st := { st with dragState := ms, disableArrowKeys := true }
    match ms with
    | .Outside => { st with startPos := pos }
    | .Inside => { st with startPos := pos, initialTopLeft := ⟨st.sel.x, st.sel.y⟩ }
    | .Top | .Left | .TopLeft =>
      { st with startPos := ⟨st.sel.right, st.sel.bottom⟩ }
    | .Bottom | .Right | .BottomRight =>
      { st with startPos := ⟨st.sel.x, st.sel.y⟩ }
    | .TopRight => { st with startPos := ⟨st.sel.x, st.sel.bottom⟩ }
    | .BottomLeft => { st with startPos := ⟨st.sel.right, st.sel.y⟩ }
    | .None => st

/-- `QuickEditor::mouseReleaseEvent`, left button.  With an active edit tool
the pending shape is finished, the pre-edit raster is pushed onto the undo
stack and the shape is composited onto the working raster; the drag state is
always cleared at the end of the handler. -/
def releaseLeft {Raster : Type}
    (drawShape : EditToolState → LineF → RectF → Raster → Raster)
    (pos : PointF) (st : EditorState Raster) : EditorState Raster :=
  if st.tool ≠ .NoEdit then
    let st1 :=
      match st.tool with
      | .DrawLine => { st with line := ⟨st.line.p1, pos⟩ }
      | .DrawRect => { st with shapeRect := (st.shapeRect.setRight pos.x).setBottom pos.y }
      | _ => st
    { st1 with
      history := st1.pixmap :: st1.history
      pixmap := drawShape st1.tool st1.line st1.shapeRect st1.pixmap
      dragState := .None }
  else
    { st with disableArrowKeys := false, dragState := .None }

/-- The terminal signal produced by the left-button release: with no edit
tool active, a release that ends an `Outside` drag accepts the selection
when the release-to-capture option is on. -/
def releaseLeftSignal (releaseToCapture : Bool) (dpr : ℚ) {Raster : Type}
    (st : EditorState Raster) : Option TerminalSignal :=
  if st.tool ≠ .NoEdit then none
  else if st.dragState = .Outside ∧ releaseToCapture then
    (acceptSelection dpr st.sel).map .done
  else none

/-- The `while(!history->isEmpty()) mPixmap = history->pop()` loop of the
right-button release branch: repeatedly pop, keeping the last popped
snapshot (the bottom-most, oldest one). -/
def drainHistory {Raster : Type} : List Raster → Raster → Raster
  | [], pix => pix
  | p :: rest, _ => drainHistory rest p

/-- `QuickEditor::mouseReleaseEvent`, right button: zero the selection's
size, pop the whole undo stack into the working raster, reset the edit tool,
and clear the drag state. -/
def releaseRight {Raster : Type} (st : EditorState Raster) : EditorState Raster :=
  { st with
    sel := (st.sel.setWidth 0).setHeight 0
    pixmap := drainHistory st.history st.pixmap
    history := []
    tool := .NoEdit
    dragState := .None }

/-- `QuickEditor::undo`: save the current tool, disarm it, pop the most
recent snapshot (if any) into the working raster, and schedule the deferred
re-arm (`QTimer::singleShot(200, ...)`) restoring the saved tool. -/
def undoStep {Raster : Type} (st : EditorState Raster) : EditorState Raster :=
  { st with
    tool := .NoEdit
    pendingReArm := some st.tool
    pixmap := match st.history with | [] => st.pixmap | p :: _ => p
    history := st.history.tail }

/-- Firing of the deferred re-arm callback scheduled by `QuickEditor::undo`:
restore the saved tool. -/
def timerFire {Raster : Type} (st : EditorState Raster) : EditorState Raster :=
  match st.pendingReArm with
  | some s => { st with tool := s, pendingReArm := none }
  | none => st

/-!
`QuickEditor::drawMagnifier`: clamping of the square sample region and the
cross-hair bar geometry.  `pixels = 2 * magPixels + 1`; the clamp records
`offsetX`/`offsetY` (negative at the low edge, positive at the high edge).
-/

/-- One axis of the magnifier sample clamp: given the pointer coordinate,
the device pixel ratio and the pixmap extent on that axis, return
`(magX, offsetX)` exactly as computed at the top of
`QuickEditor::drawMagnifier`. -/
def magClamp (mouseCoord : ℚ) (dpr : ℚ) (pixmapExtent : ℤ) : ℤ × ℤ :=
  let pixels : ℤ := 2 * magPixels + 1
  let m : ℤ := truncInt (mouseCoord * dpr - (magPixels : ℚ))
  if m < 0 then (0, m)
  else
    let maxC := pixmapExtent - pixels
    if maxC < m then (maxC, m - maxC) else (m, 0)

/-- Height of the `crossHairTop` bar: `magZoom * (magPixels + offsetY)`. -/
def crossHairTopHeight (offsetY : ℤ) : ℤ := magZoom * (magPixels + offsetY)

/-- Width of the `crossHairLeft` bar: `magZoom * (magPixels + offsetX)`. -/
def crossHairLeftWidth (offsetX : ℤ) : ℤ := magZoom * (magPixels + offsetX)

/-- Width of the `crossHairRight` bar: `magZoom * (magPixels - offsetX)`. -/
def crossHairRightWidth (offsetX : ℤ) : ℤ := magZoom * (magPixels - offsetX)

/-- Height of the `crossHairBottom` bar: `magZoom * (magPixels - offsetY)`. -/
def crossHairBottomHeight (offsetY : ℤ) : ℤ := magZoom * (magPixels - offsetY)

/-!
Concrete editor states and a concrete compositing function, used to
evaluate the event handlers on explicit inputs.
-/

/-- A concrete compositing function on `ℕ` rasters: every committed shape
changes the raster (increments it), so commits are observable. -/
def sampleDraw : EditToolState → LineF → RectF → ℕ → ℕ := fun _ _ _ n => n + 1

/-- A concrete editor state with the rectangle tool armed, one undo
snapshot, and a pending shape. -/
def rectToolState : EditorState ℕ :=
  { pixmap := 7
    history := [3]
    tool := .DrawRect
    pendingReArm := none
    sel := ⟨0, 0, 100, 100⟩
    dragState := .None
    startPos := ⟨0, 0⟩
    initialTopLeft := ⟨0, 0⟩
    line := ⟨⟨0, 0⟩, ⟨0, 0⟩⟩
    shapeRect := ⟨1, 1, 2, 2⟩
    disableArrowKeys := false }

/-- A concrete editor state with the line tool armed and one committed
annotation on the undo stack (working raster `5`, snapshot `0`). -/
def lineToolState : EditorState ℕ :=
  { pixmap := 5
    history := [0]
    tool := .DrawLine
    pendingReArm := none
    sel := ⟨0, 0, 100, 100⟩
    dragState := .None
    startPos := ⟨0, 0⟩
    initialTopLeft := ⟨0, 0⟩
    line := ⟨⟨1, 1⟩, ⟨2, 2⟩⟩
    shapeRect := ⟨0, 0, 0, 0⟩
    disableArrowKeys := false }

/-- The event run exercising the deferred re-arm: undo, then a pointer
press arriving before the 200 ms re-arm delay has elapsed, then the timer
firing mid-gesture, then the release of that same press. -/
def rearmRaceRun : EditorState ℕ :=
  releaseLeft sampleDraw ⟨200, 200⟩
    (timerFire (pressLeft ⟨200, 200⟩ (undoStep lineToolState)))

/-!
## Claims
-/

/-- Helper: the two `withinThreshold` facts forced by a top-edge
classification. -/
theorem mouseLocation_top_within (sel : RectF) (pos : PointF)
    (h : mouseLocation sel pos = .TopLeft ∨ mouseLocation sel pos = .Top ∨
      mouseLocation sel pos = .TopRight) :
    withinThreshold (pos.y - sel.y) (verSize sel) = true := by
  by_cases hc : sel.containsP pos
  · by_cases ht : withinThreshold (pos.y - sel.y) (verSize sel) = true
    · exact ht
    · exfalso
      simp only [mouseLocation, if_pos hc, Bool.not_eq_true] at h
      rw [Bool.not_eq_true] at ht
      simp only [ht, Bool.false_eq_true, if_false, Bool.not_false, Bool.true_and] at h
      rcases h with h | h | h <;> (repeat' split at h) <;> simp_all
  · simp only [mouseLocation, if_neg hc] at h
    rcases h with h | h | h <;> exact absurd h (by simp)

/-- Helper: the `withinThreshold` fact forced by a right-edge
classification. -/
theorem mouseLocation_right_within (sel : RectF) (pos : PointF)
    (h : mouseLocation sel pos = .TopRight ∨ mouseLocation sel pos = .Right ∨
      mouseLocation sel pos = .BottomRight) :
    withinThreshold (sel.right - pos.x) (horSize sel) = true := by
  by_cases hc : sel.containsP pos
  · by_cases hr : withinThreshold (sel.right - pos.x) (horSize sel) = true
    · exact hr
    · exfalso
      simp only [mouseLocation, if_pos hc, Bool.not_eq_true] at h
      rw [Bool.not_eq_true] at hr
      simp only [hr, Bool.false_eq_true, if_false, Bool.not_false, Bool.true_and] at h
      rcases h with h | h | h <;> (repeat' split at h) <;> simp_all
  · simp only [mouseLocation, if_neg hc] at h
    rcases h with h | h | h <;> exact absurd h (by simp)

theorem qMin_le_right (a b : ℚ) : qMin a b ≤ b := by
  unfold qMin
  split
  · exact le_of_lt (by assumption)
  · exact le_refl b

theorem qMin_le_left (a b : ℚ) : qMin a b ≤ a := by
  unfold qMin
  split
  · exact le_refl a
  · exact le_of_not_lt (by assumption)

/-- C5: the hit-test classifier's edge tolerance on each axis equals
`min(20 logical px, half the selection's extent on that axis)`, so the
tolerance band never exceeds half the extent: whenever a pointer position
is classified as (part of) the top edge it is within `verSize ≤ height/2`
of the top, and symmetrically for the right edge. -/
theorem hitTest_tolerance_bound (sel : RectF) (pos : PointF) :
    verSize sel = qMin 20 (sel.h / 2) ∧
    horSize sel = qMin 20 (sel.w / 2) ∧
    verSize sel ≤ sel.h / 2 ∧
    horSize sel ≤ sel.w / 2 ∧
    ((mouseLocation sel pos = .TopLeft ∨ mouseLocation sel pos = .Top ∨
        mouseLocation sel pos = .TopRight) →
      pos.y - sel.y ≤ sel.h / 2 ∧ pos.y - sel.y ≤ 20) ∧
    ((mouseLocation sel pos = .TopRight ∨ mouseLocation sel pos = .Right ∨
        mouseLocation sel pos = .BottomRight) →
      sel.right - pos.x ≤ sel.w / 2 ∧ sel.right - pos.x ≤ 20) := by
  refine ⟨rfl, rfl, qMin_le_right _ _, qMin_le_right _ _, ?_, ?_⟩
  · intro h
    have hw := mouseLocation_top_within sel pos h
    unfold withinThreshold at hw
    simp only [Bool.and_eq_true, decide_eq_true_eq] at hw
    exact ⟨le_trans hw.1 (qMin_le_right _ _),
      le_trans hw.1 (qMin_le_left _ _)⟩
  · intro h
    have hw := mouseLocation_right_within sel pos h
    unfold withinThreshold at hw
    simp only [Bool.and_eq_true, decide_eq_true_eq] at hw
    exact ⟨le_trans hw.1 (qMin_le_right _ _),
      le_trans hw.1 (qMin_le_left _ _)⟩

/-- Witness for C5 at a concrete input: `(5,5)` on `rect(0,0,100,100)` is
classified `TopLeft`, and the theorem yields the tolerance bounds there. -/
theorem hitTest_tolerance_witness :
    (mouseLocation ⟨0, 0, 100, 100⟩ ⟨5, 5⟩ = .TopLeft ∨
      mouseLocation ⟨0, 0, 100, 100⟩ ⟨5, 5⟩ = .Top ∨
      mouseLocation ⟨0, 0, 100, 100⟩ ⟨5, 5⟩ = .TopRight) ∧
    ((5 : ℚ) - 0 ≤ (100 : ℚ) / 2 ∧ (5 : ℚ) - 0 ≤ 20) := by
  have hloc : mouseLocation ⟨0, 0, 100, 100⟩ ⟨5, 5⟩ = .TopLeft := by
    norm_num [mouseLocation, RectF.containsP, verSize, horSize, withinThreshold,
      mouseAreaSize, qMin, RectF.right, RectF.bottom]
  exact ⟨Or.inl hloc,
    (hitTest_tolerance_bound ⟨0, 0, 100, 100⟩ ⟨5, 5⟩).2.2.2.2.1 (Or.inl hloc)⟩

/-- C10: for every pointer position not contained in the selection
rectangle the classifier returns `Outside`; the tolerance bands extend only
inward from the boundary. -/
theorem hitTest_outside_only_inward (sel : RectF) (pos : PointF)
    (h : ¬ sel.containsP pos) : mouseLocation sel pos = .Outside := by
  simp only [mouseLocation, if_neg h]

/-- Witness for C10: `(-1, 50)` is within 20 logical px of the left edge of
`rect(0,0,100,100)` but outside it, and is classified `Outside`. -/
theorem hitTest_outside_witness :
    ¬ (RectF.mk 0 0 100 100).containsP ⟨-1, 50⟩ ∧
    (0 : ℚ) - 20 ≤ (-1 : ℚ) ∧
    mouseLocation ⟨0, 0, 100, 100⟩ ⟨-1, 50⟩ = .Outside := by
  have hc : ¬ (RectF.mk 0 0 100 100).containsP ⟨-1, 50⟩ := by
    norm_num [RectF.containsP]
  exact ⟨hc, by norm_num, hitTest_outside_only_inward _ _ hc⟩

/-- C3: when the selection has zero width or zero height, `acceptSelection`
emits no completion result and persists no crop region, under any of the
three completion paths (Enter, double-click, release-to-capture); from that
state only Escape produces a terminal signal, namely `grabCancelled`. -/
theorem empty_selection_refuses_completion (dpr : ℚ) (sel : RectF)
    (hempty : sel.w = 0 ∨ sel.h = 0) :
    acceptSelection dpr sel = none ∧
    keySignal dpr sel .enter = none ∧
    (∀ pos, doubleClickSignal dpr sel pos = none) ∧
    (∀ (Raster : Type) (rtc : Bool) (st : EditorState Raster),
      st.sel = sel → releaseLeftSignal rtc dpr st = none) ∧
    keySignal dpr sel .escape = some .cancelled := by
  have hemp : sel.isEmptyF := by
    rcases hempty with h | h
    · exact Or.inl (le_of_eq h)
    · exact Or.inr (le_of_eq h)
  have hacc : acceptSelection dpr sel = none := by
    unfold acceptSelection
    rw [if_neg (not_not_intro hemp)]
  refine ⟨hacc, ?_, ?_, ?_, rfl⟩
  · simp only [keySignal, hacc, Option.map_none']
  · intro pos
    unfold doubleClickSignal
    split
    · simp only [hacc, Option.map_none']
    · rfl
  · intro Raster rtc st hsel
    unfold releaseLeftSignal
    split
    · rfl
    · split
      · rw [hsel, hacc]; rfl
      · rfl

/-- Witness for C3: a selection of zero width (height 50). -/
theorem empty_selection_witness :
    ((0 : ℚ) = 0 ∨ (50 : ℚ) = 0) ∧
    acceptSelection 1 ⟨10, 10, 0, 50⟩ = none ∧
    keySignal 1 ⟨10, 10, 0, 50⟩ .escape = some .cancelled := by
  have h := empty_selection_refuses_completion 1 ⟨10, 10, 0, 50⟩ (Or.inl rfl)
  exact ⟨Or.inl rfl, h.1, h.2.2.2.2⟩

/-- C2: committing a shape on pointer-release (push the pre-edit raster,
then composite the shape) followed by one undo restores the working raster
to exactly the pre-commit raster, and leaves the undo stack as it was, for
every raster type, every compositing function and every release position. -/
theorem commit_then_undo_restores_raster (Raster : Type)
    (drawShape : EditToolState → LineF → RectF → Raster → Raster)
    (pos : PointF) (st : EditorState Raster) (h : st.tool ≠ .NoEdit) :
    (undoStep (releaseLeft drawShape pos st)).pixmap = st.pixmap ∧
    (undoStep (releaseLeft drawShape pos st)).history = st.history := by
  cases ht : st.tool <;>
    simp_all [releaseLeft, undoStep]

/-- Witness for C2: with the rectangle tool armed on the concrete state
`rectToolState` (raster `7`), commit-then-undo returns raster `7` and the
original stack `[3]`. -/
theorem commit_then_undo_witness :
    rectToolState.tool ≠ .NoEdit ∧
    (undoStep (releaseLeft sampleDraw ⟨9, 9⟩ rectToolState)).pixmap = 7 ∧
    (undoStep (releaseLeft sampleDraw ⟨9, 9⟩ rectToolState)).history = [3] := by
  have h : rectToolState.tool ≠ .NoEdit := by
    simp [rectToolState]
  have hc := commit_then_undo_restores_raster ℕ sampleDraw ⟨9, 9⟩ rectToolState h
  exact ⟨h, hc.1, hc.2⟩

theorem drainHistory_eq_getLastD {Raster : Type} (l : List Raster) (pix : Raster) :
    drainHistory l pix = l.getLastD pix := by
  induction l generalizing pix with
  | nil => rfl
  | cons p rest ih =>
    simp only [drainHistory, List.getLastD_cons]
    exact ih p

/-- C9: a right-click release zeroes the selection's width and height
(keeping its position), pops the entire undo stack into the working raster
so that the raster becomes the bottom-most (oldest) snapshot whenever the
stack is non-empty (`getLastD` returns the old raster when it is empty),
empties the stack, resets the tool to `NoEdit` and clears the drag state. -/
theorem rightRelease_restores_oldest_snapshot (Raster : Type)
    (st : EditorState Raster) :
    (releaseRight st).pixmap = st.history.getLastD st.pixmap ∧
    (releaseRight st).history = [] ∧
    (releaseRight st).tool = .NoEdit ∧
    (releaseRight st).sel.w = 0 ∧
    (releaseRight st).sel.h = 0 ∧
    (releaseRight st).sel.x = st.sel.x ∧
    (releaseRight st).sel.y = st.sel.y ∧
    (releaseRight st).dragState = .None := by
  refine ⟨?_, rfl, rfl, rfl, rfl, rfl, rfl, rfl⟩
  exact drainHistory_eq_getLastD st.history st.pixmap

/-- C8: the deferred re-arm after undo does race a new pointer-press.  In
the run `rearmRaceRun` the press arrives while the tool is still disarmed
(`NoEdit`, first conjunct), the pending re-arm is not cancelled and fires
mid-gesture, and the release of that same press then commits a drawing
action: the pre-edit raster `0` is pushed and the shape is composited
(`pixmap` becomes `sampleDraw ... 0 = 1`). -/
theorem undo_rearm_race_draws :
    (pressLeft ⟨200, 200⟩ (undoStep lineToolState)).tool = .NoEdit ∧
    (pressLeft ⟨200, 200⟩ (undoStep lineToolState)).pendingReArm = some .DrawLine ∧
    (timerFire (pressLeft ⟨200, 200⟩ (undoStep lineToolState))).tool = .DrawLine ∧
    rearmRaceRun.history = [0] ∧
    rearmRaceRun.pixmap = 1 := by
  have hms : mouseLocation (⟨0, 0, 100, 100⟩ : RectF) ⟨200, 200⟩ = .Outside := by
    norm_num [mouseLocation, RectF.containsP]
  have hundo : undoStep lineToolState =
      { lineToolState with
        tool := .NoEdit
        pendingReArm := some .DrawLine
        pixmap := 0
        history := [] } := by
    simp [undoStep, lineToolState]
  have hpress : pressLeft ⟨200, 200⟩ (undoStep lineToolState) =
      { lineToolState with
        tool := .NoEdit
        pendingReArm := some .DrawLine
        pixmap := 0
        history := []
        dragState := .Outside
        disableArrowKeys := true
        startPos := ⟨200, 200⟩ } := by
    rw [hundo]
    simp [pressLeft, lineToolState, hms]
  have htimer : timerFire (pressLeft ⟨200, 200⟩ (undoStep lineToolState)) =
      { lineToolState with
        tool := .DrawLine
        pendingReArm := none
        pixmap := 0
        history := []
        dragState := .Outside
        disableArrowKeys := true
        startPos := ⟨200, 200⟩ } := by
    rw [hpress]
    simp [timerFire]
  refine ⟨?_, ?_, ?_, ?_, ?_⟩
  · rw [hpress]
  · rw [hpress]
  · rw [htimer]
  · unfold rearmRaceRun
    rw [htimer]
    simp [releaseLeft, sampleDraw, lineToolState]
  · unfold rearmRaceRun
    rw [htimer]
    simp [releaseLeft, sampleDraw, lineToolState]

theorem truncInt_intCast (n : ℤ) : truncInt (n : ℚ) = n := by
  unfold truncInt
  split
  · exact Int.floor_intCast n
  · exact Int.ceil_intCast n

/-- C7 counterexample: with the pointer at `(0,0)` (dpr 1, pixmap width
1000) the sample region is clamped to start at 0, but the recorded clamp
offset is `-16`, not the positive clamp amount `16` claimed. -/
theorem magnifier_offset_not_positive :
    (magClamp 0 1 1000).1 = 0 ∧
    (magClamp 0 1 1000).2 = -16 ∧
    ¬ (0 < (magClamp 0 1 1000).2) := by
  have hm : truncInt ((-16 : ℚ)) = -16 := by
    rw [show ((-16 : ℚ)) = ((-16 : ℤ) : ℚ) by norm_num]
    exact truncInt_intCast _
  refine ⟨?_, ?_, ?_⟩ <;>
    simp [magClamp, hm, magPixels]

/-- C7 amended: at pointer `(0,0)`, for every device pixel ratio and every
pixmap width, the sample region is clamped to start at `0` and the recorded
offset is `-magPixels = -16` (negative, equal to minus the clamp amount);
the top and left cross-hair bars are shortened by that amount to length
`magZoom * (magPixels + offset) = 0`, while the bottom and right bars take
up the slack (`magZoom * (magPixels - offset) = 160`). -/
theorem magnifier_corner_clamp (dpr : ℚ) (pixExtent : ℤ) :
    (magClamp 0 dpr pixExtent).1 = 0 ∧
    (magClamp 0 dpr pixExtent).2 = -magPixels ∧
    crossHairTopHeight (magClamp 0 dpr pixExtent).2 = 0 ∧
    crossHairLeftWidth (magClamp 0 dpr pixExtent).2 = 0 ∧
    crossHairBottomHeight (magClamp 0 dpr pixExtent).2 = 160 ∧
    crossHairRightWidth (magClamp 0 dpr pixExtent).2 = 160 := by
  have hm : truncInt (-(magPixels : ℚ)) = -16 := by
    rw [show (-(magPixels : ℚ)) = ((-16 : ℤ) : ℚ) by norm_num [magPixels]]
    exact truncInt_intCast _
  have hclamp : magClamp 0 dpr pixExtent = (0, -16) := by
    simp [magClamp, hm]
  rw [hclamp]
  norm_num [magPixels, crossHairTopHeight, crossHairLeftWidth,
    crossHairBottomHeight, crossHairRightWidth, magZoom]

theorem moveCorner_w_nonneg {dprI : ℚ} (hd : 0 ≤ dprI) (s p : PointF) :
    0 ≤ (moveCorner dprI s p).w := by
  unfold moveCorner
  dsimp only
  split
  · exact add_nonneg (abs_nonneg _) hd
  · exact add_nonneg (abs_nonneg _) le_rfl

theorem moveCorner_h_nonneg {dprI : ℚ} (hd : 0 ≤ dprI) (s p : PointF) :
    0 ≤ (moveCorner dprI s p).h := by
  unfold moveCorner
  dsimp only
  split
  · exact add_nonneg (abs_nonneg _) hd
  · exact add_nonneg (abs_nonneg _) le_rfl

/-- C6 counterexample: corner-resizing with anchor `(0,0)` and pointer
`(10,10)` (dpr 1) and the swapped gesture with anchor `(10,10)` and pointer
`(0,0)` produce different normalized rectangles: the inclusive-edge
`+dprI` adjustment lands on different gestures (`11×11` versus `10×10`). -/
theorem cornerResize_swap_not_equal :
    (moveCorner 1 ⟨0, 0⟩ ⟨10, 10⟩).normalized ≠
      (moveCorner 1 ⟨10, 10⟩ ⟨0, 0⟩).normalized := by
  norm_num [moveCorner, RectF.normalized, RectF.mk.injEq]

/-- C6 amended: resizing from a corner handle and from the diagonally
opposite corner with the endpoints swapped agree on the normalized top-left
corner, and on each axis the extents differ by exactly `dprI` (one device
pixel) when the endpoints differ on that axis — the inclusive trailing-edge
adjustment lands on the gesture whose pointer is on the greater side — and
agree when they coincide. -/
theorem cornerResize_swap_same_up_to_inclusive_edge (dprI : ℚ)
    (hd : 0 ≤ dprI) (a b : PointF) :
    ((moveCorner dprI a b).normalized).x = ((moveCorner dprI b a).normalized).x ∧
    ((moveCorner dprI a b).normalized).y = ((moveCorner dprI b a).normalized).y ∧
    ((moveCorner dprI a b).normalized).w - ((moveCorner dprI b a).normalized).w
      = (if a.x ≤ b.x then dprI else 0) - (if b.x ≤ a.x then dprI else 0) ∧
    ((moveCorner dprI a b).normalized).h - ((moveCorner dprI b a).normalized).h
      = (if a.y ≤ b.y then dprI else 0) - (if b.y ≤ a.y then dprI else 0) := by
  rw [RectF.normalized_of_nonneg (moveCorner_w_nonneg hd a b)
      (moveCorner_h_nonneg hd a b),
    RectF.normalized_of_nonneg (moveCorner_w_nonneg hd b a)
      (moveCorner_h_nonneg hd b a)]
  refine ⟨?_, ?_, ?_, ?_⟩
  · by_cases h1 : a.x ≤ b.x <;> by_cases h2 : b.x ≤ a.x <;>
      simp [moveCorner, h1, h2]
    · exact le_antisymm h1 h2
    · rcases le_total a.x b.x with h | h <;> contradiction
  · by_cases h1 : a.y ≤ b.y <;> by_cases h2 : b.y ≤ a.y <;>
      simp [moveCorner, h1, h2]
    · exact le_antisymm h1 h2
    · rcases le_total a.y b.y with h | h <;> contradiction
  · by_cases h1 : a.x ≤ b.x <;> by_cases h2 : b.x ≤ a.x <;>
      simp [moveCorner, h1, h2] <;> rw [abs_sub_comm] <;> ring
  · by_cases h1 : a.y ≤ b.y <;> by_cases h2 : b.y ≤ a.y <;>
      simp [moveCorner, h1, h2] <;> rw [abs_sub_comm] <;> ring

/-- Witness for C6 amended at dprI 1, anchor `(0,0)`, pointer `(10,10)`. -/
theorem cornerResize_swap_witness :
    ((moveCorner 1 ⟨0, 0⟩ ⟨10, 10⟩).normalized).x
        = ((moveCorner 1 ⟨10, 10⟩ ⟨0, 0⟩).normalized).x ∧
    ((moveCorner 1 ⟨0, 0⟩ ⟨10, 10⟩).normalized).y
        = ((moveCorner 1 ⟨10, 10⟩ ⟨0, 0⟩).normalized).y ∧
    ((moveCorner 1 ⟨0, 0⟩ ⟨10, 10⟩).normalized).w
          - ((moveCorner 1 ⟨10, 10⟩ ⟨0, 0⟩).normalized).w
      = (if (0 : ℚ) ≤ 10 then (1 : ℚ) else 0) - (if (10 : ℚ) ≤ 0 then (1 : ℚ) else 0) ∧
    ((moveCorner 1 ⟨0, 0⟩ ⟨10, 10⟩).normalized).h
          - ((moveCorner 1 ⟨10, 10⟩ ⟨0, 0⟩).normalized).h
      = (if (0 : ℚ) ≤ 10 then (1 : ℚ) else 0) - (if (10 : ℚ) ≤ 0 then (1 : ℚ) else 0) :=
  cornerResize_swap_same_up_to_inclusive_edge 1 (by norm_num) ⟨0, 0⟩ ⟨10, 10⟩

/-- C4 counterexample: at device pixel ratio 2 (selection top at logical
10), an unmodified Up press moves the selection by `15/2 = 7.5` logical
pixels — the step is applied in device pixels, not the claimed 15 (or 1)
logical pixels. -/
theorem arrowKey_step_not_logical :
    (keyArrow 1000 800 2 false false false .up ⟨0, 10, 5, 5⟩).y = 5/2 ∧
    (10 : ℚ) - (keyArrow 1000 800 2 false false false .up ⟨0, 10, 5, 5⟩).y ≠ 15 ∧
    (10 : ℚ) - (keyArrow 1000 800 2 false false false .up ⟨0, 10, 5, 5⟩).y ≠ 1 := by
  have hq5 : qRound (5 : ℚ) = 5 := by
    unfold qRound
    rw [if_pos (by norm_num)]
    norm_num
  have hy : (keyArrow 1000 800 2 false false false .up ⟨0, 10, 5, 5⟩).y = 5/2 := by
    simp only [keyArrow, magnifierLargeStep, Bool.false_eq_true, if_false]
    norm_num [hq5, boundsUp, RectF.moveTop]
  refine ⟨hy, ?_, ?_⟩ <;> rw [hy] <;> norm_num


/-- C4 amended: the arrow-key step is applied in *device* pixels — 15
device pixels, or 1 with Shift, i.e. `step * dprI` logical pixels (15
logical only when dpr = 1).  Whenever the affected edge lies on an exact
integer device coordinate and the clamp does not bind (at least `step`
device pixels of room toward the canvas edge; for the Alt cases at least
`step` device pixels of selection extent, so the re-normalization after
Up/Left is the identity), each of the four arrow keys moves the selection
by exactly `step` device pixels on its own axis — or, with Alt, resizes
the bottom (Up/Down) or right (Left/Right) edge by exactly `step` device
pixels — leaving the other axis and the size untouched; and while a
pointer drag is in progress (`mDisableArrowKeys`) every arrow key leaves
the selection unchanged.  (At fractional device coordinates the
displacement additionally absorbs the sub-pixel rounding of `qRound`.) -/
theorem arrowKey_step_device_pixels (W H : ℤ) (dpr : ℚ) (hdpr : 0 < dpr)
    (sel : RectF) (shift : Bool) (t tx : ℤ)
    (ht : sel.y * dpr = (t : ℚ)) (htx : sel.x * dpr = (tx : ℚ))
    (ht15 : (15 : ℤ) ≤ t) (htx15 : (15 : ℤ) ≤ tx)
    (hdown : t + 15 ≤ realMaxY H dpr sel)
    (hright : tx + 15 ≤ realMaxX W dpr sel)
    (hh15 : (15 : ℚ) ≤ sel.h * dpr) (hw15 : (15 : ℚ) ≤ sel.w * dpr) :
    ((keyArrow W H dpr false shift false .up sel).y * dpr
        = (t : ℚ) - (if shift then (1 : ℚ) else 15) ∧
      (keyArrow W H dpr false shift false .up sel).x = sel.x ∧
      (keyArrow W H dpr false shift false .up sel).w = sel.w ∧
      (keyArrow W H dpr false shift false .up sel).h = sel.h) ∧
    ((keyArrow W H dpr false shift true .up sel).y = sel.y ∧
      (keyArrow W H dpr false shift true .up sel).x = sel.x ∧
      (keyArrow W H dpr false shift true .up sel).w = sel.w ∧
      (keyArrow W H dpr false shift true .up sel).h * dpr
        = sel.h * dpr - (if shift then (1 : ℚ) else 15)) ∧
    ((keyArrow W H dpr false shift false .down sel).y * dpr
        = (t : ℚ) + (if shift then (1 : ℚ) else 15) ∧
      (keyArrow W H dpr false shift false .down sel).x = sel.x ∧
      (keyArrow W H dpr false shift false .down sel).w = sel.w ∧
      (keyArrow W H dpr false shift false .down sel).h = sel.h) ∧
    ((keyArrow W H dpr false shift true .down sel).y = sel.y ∧
      (keyArrow W H dpr false shift true .down sel).x = sel.x ∧
      (keyArrow W H dpr false shift true .down sel).w = sel.w ∧
      (keyArrow W H dpr false shift true .down sel).h * dpr
        = sel.h * dpr + (if shift then (1 : ℚ) else 15)) ∧
    ((keyArrow W H dpr false shift false .left sel).x * dpr
        = (tx : ℚ) - (if shift then (1 : ℚ) else 15) ∧
      (keyArrow W H dpr false shift false .left sel).y = sel.y ∧
      (keyArrow W H dpr false shift false .left sel).w = sel.w ∧
      (keyArrow W H dpr false shift false .left sel).h = sel.h) ∧
    ((keyArrow W H dpr false shift true .left sel).x = sel.x ∧
      (keyArrow W H dpr false shift true .left sel).y = sel.y ∧
      (keyArrow W H dpr false shift true .left sel).h = sel.h ∧
      (keyArrow W H dpr false shift true .left sel).w * dpr
        = sel.w * dpr - (if shift then (1 : ℚ) else 15)) ∧
    ((keyArrow W H dpr false shift false .right sel).x * dpr
        = (tx : ℚ) + (if shift then (1 : ℚ) else 15) ∧
      (keyArrow W H dpr false shift false .right sel).y = sel.y ∧
      (keyArrow W H dpr false shift false .right sel).w = sel.w ∧
      (keyArrow W H dpr false shift false .right sel).h = sel.h) ∧
    ((keyArrow W H dpr false shift true .right sel).x = sel.x ∧
      (keyArrow W H dpr false shift true .right sel).y = sel.y ∧
      (keyArrow W H dpr false shift true .right sel).h = sel.h ∧
      (keyArrow W H dpr false shift true .right sel).w * dpr
        = sel.w * dpr + (if shift then (1 : ℚ) else 15)) ∧
    (∀ (k : ArrowKey) (alt : Bool), keyArrow W H dpr true shift alt k sel = sel) := by
  have hdne : dpr ≠ 0 := ne_of_gt hdpr
  have hstepc : (if shift then (1 : ℚ) else (magnifierLargeStep : ℚ))
      = (((if shift then (1 : ℤ) else 15) : ℤ) : ℚ) := by
    cases shift <;> simp [magnifierLargeStep]
  have hstepq : (((if shift then (1 : ℤ) else 15) : ℤ) : ℚ)
      = (if shift then (1 : ℚ) else 15) := by
    cases shift <;> simp
  have hstepQ15 : (if shift then (1 : ℚ) else 15) ≤ 15 := by
    cases shift <;> norm_num
  have hqyu : qRound (sel.y * dpr - (if shift then (1 : ℚ) else (magnifierLargeStep : ℚ)))
      = t - (if shift then (1 : ℤ) else 15) := by
    rw [hstepc, ht,
      show ((t : ℚ) - (((if shift then (1 : ℤ) else 15) : ℤ) : ℚ))
        = (((t - (if shift then (1 : ℤ) else 15)) : ℤ) : ℚ) by push_cast; ring]
    exact qRound_intCast _
  have hqyd : qRound (sel.y * dpr + (if shift then (1 : ℚ) else (magnifierLargeStep : ℚ)))
      = t + (if shift then (1 : ℤ) else 15) := by
    rw [hstepc, ht,
      show ((t : ℚ) + (((if shift then (1 : ℤ) else 15) : ℤ) : ℚ))
        = (((t + (if shift then (1 : ℤ) else 15)) : ℤ) : ℚ) by push_cast; ring]
    exact qRound_intCast _
  have hqxl : qRound (sel.x * dpr - (if shift then (1 : ℚ) else (magnifierLargeStep : ℚ)))
      = tx - (if shift then (1 : ℤ) else 15) := by
    rw [hstepc, htx,
      show ((tx : ℚ) - (((if shift then (1 : ℤ) else 15) : ℤ) : ℚ))
        = (((tx - (if shift then (1 : ℤ) else 15)) : ℤ) : ℚ) by push_cast; ring]
    exact qRound_intCast _
  have hqxr : qRound (sel.x * dpr + (if shift then (1 : ℚ) else (magnifierLargeStep : ℚ)))
      = tx + (if shift then (1 : ℤ) else 15) := by
    rw [hstepc, htx,
      show ((tx : ℚ) + (((if shift then (1 : ℤ) else 15) : ℤ) : ℚ))
        = (((tx + (if shift then (1 : ℤ) else 15)) : ℤ) : ℚ) by push_cast; ring]
    exact qRound_intCast _
  have hbU : (boundsUp (1 / dpr) 0 (t - (if shift then (1 : ℤ) else 15)) false).1
      = t - (if shift then (1 : ℤ) else 15) := by
    unfold boundsUp
    rw [if_neg (by cases shift <;> simp <;> omega)]
  have hbL : (boundsLeft (1 / dpr) 0 (tx - (if shift then (1 : ℤ) else 15)) false).1
      = tx - (if shift then (1 : ℤ) else 15) := by
    unfold boundsLeft
    rw [if_neg (by cases shift <;> simp <;> omega)]
  have hbD : (boundsDown (1 / dpr) (realMaxY H dpr sel) 0
      (t + (if shift then (1 : ℤ) else 15)) false).1
      = t + (if shift then (1 : ℤ) else 15) := by
    unfold boundsDown
    dsimp only
    rw [if_neg (by cases shift <;> simp <;> omega)]
  have hbR : (boundsRight (1 / dpr) (realMaxX W dpr sel) 0
      (tx + (if shift then (1 : ℤ) else 15)) false).1
      = tx + (if shift then (1 : ℤ) else 15) := by
    unfold boundsRight
    dsimp only
    rw [if_neg (by cases shift <;> simp <;> omega)]
  have hUp : keyArrow W H dpr false shift false .up sel
      = sel.moveTop ((1 / dpr) * (((t - (if shift then (1 : ℤ) else 15)) : ℤ) : ℚ)) := by
    simp only [keyArrow, Bool.false_eq_true, if_false, hqyu, hbU]
  have hUpA : keyArrow W H dpr false shift true .up sel
      = (sel.setBottom
          ((1 / dpr) * (((t - (if shift then (1 : ℤ) else 15)) : ℤ) : ℚ) + sel.h)).normalized := by
    simp only [keyArrow, Bool.false_eq_true, if_false, if_true, hqyu, hbU]
  have hDown : keyArrow W H dpr false shift false .down sel
      = sel.moveTop ((1 / dpr) * (((t + (if shift then (1 : ℤ) else 15)) : ℤ) : ℚ)) := by
    simp only [keyArrow, Bool.false_eq_true, if_false, hqyd, hbD]
  have hDownA : keyArrow W H dpr false shift true .down sel
      = sel.setBottom
          ((1 / dpr) * (((t + (if shift then (1 : ℤ) else 15)) : ℤ) : ℚ) + sel.h) := by
    simp only [keyArrow, Bool.false_eq_true, if_false, if_true, hqyd, hbD]
  have hLeft : keyArrow W H dpr false shift false .left sel
      = sel.moveLeft ((1 / dpr) * (((tx - (if shift then (1 : ℤ) else 15)) : ℤ) : ℚ)) := by
    simp only [keyArrow, Bool.false_eq_true, if_false, hqxl, hbL]
  have hLeftA : keyArrow W H dpr false shift true .left sel
      = (sel.setRight
          ((1 / dpr) * (((tx - (if shift then (1 : ℤ) else 15)) : ℤ) : ℚ) + sel.w)).normalized := by
    simp only [keyArrow, Bool.false_eq_true, if_false, if_true, hqxl, hbL]
  have hRight : keyArrow W H dpr false shift false .right sel
      = sel.moveLeft ((1 / dpr) * (((tx + (if shift then (1 : ℤ) else 15)) : ℤ) : ℚ)) := by
    simp only [keyArrow, Bool.false_eq_true, if_false, hqxr, hbR]
  have hRightA : keyArrow W H dpr false shift true .right sel
      = sel.setRight
          ((1 / dpr) * (((tx + (if shift then (1 : ℤ) else 15)) : ℤ) : ℚ) + sel.w) := by
    simp only [keyArrow, Bool.false_eq_true, if_false, if_true, hqxr, hbR]
  have hy : sel.y = (t : ℚ) / dpr := by
    field_simp at ht ⊢
    linarith [ht]
  have hx : sel.x = (tx : ℚ) / dpr := by
    field_simp at htx ⊢
    linarith [htx]
  have h0w : 0 ≤ sel.w := by
    by_contra hc
    push_neg at hc
    have : sel.w * dpr < 0 := mul_neg_of_neg_of_pos hc hdpr
    linarith
  have h0h : 0 ≤ sel.h := by
    by_contra hc
    push_neg at hc
    have : sel.h * dpr < 0 := mul_neg_of_neg_of_pos hc hdpr
    linarith
  have hBh : (sel.setBottom
      ((1 / dpr) * (((t - (if shift then (1 : ℤ) else 15)) : ℤ) : ℚ) + sel.h)).h
      = sel.h - (if shift then (1 : ℚ) else 15) / dpr := by
    unfold RectF.setBottom
    dsimp only
    rw [hy, ← hstepq]
    push_cast
    ring
  have hhn : 0 ≤ (sel.setBottom
      ((1 / dpr) * (((t - (if shift then (1 : ℤ) else 15)) : ℤ) : ℚ) + sel.h)).h := by
    rw [hBh]
    have hd2 : (if shift then (1 : ℚ) else 15) / dpr ≤ sel.h := by
      rw [div_le_iff₀ hdpr]
      exact le_trans hstepQ15 hh15
    linarith
  have hwn : 0 ≤ (sel.setBottom
      ((1 / dpr) * (((t - (if shift then (1 : ℤ) else 15)) : ℤ) : ℚ) + sel.h)).w := h0w
  have hDh : (sel.setBottom
      ((1 / dpr) * (((t + (if shift then (1 : ℤ) else 15)) : ℤ) : ℚ) + sel.h)).h
      = sel.h + (if shift then (1 : ℚ) else 15) / dpr := by
    unfold RectF.setBottom
    dsimp only
    rw [hy, ← hstepq]
    push_cast
    ring
  have hLw : (sel.setRight
      ((1 / dpr) * (((tx - (if shift then (1 : ℤ) else 15)) : ℤ) : ℚ) + sel.w)).w
      = sel.w - (if shift then (1 : ℚ) else 15) / dpr := by
    unfold RectF.setRight
    dsimp only
    rw [hx, ← hstepq]
    push_cast
    ring
  have hwn2 : 0 ≤ (sel.setRight
      ((1 / dpr) * (((tx - (if shift then (1 : ℤ) else 15)) : ℤ) : ℚ) + sel.w)).w := by
    rw [hLw]
    have hd2 : (if shift then (1 : ℚ) else 15) / dpr ≤ sel.w := by
      rw [div_le_iff₀ hdpr]
      exact le_trans hstepQ15 hw15
    linarith
  have hhn2 : 0 ≤ (sel.setRight
      ((1 / dpr) * (((tx - (if shift then (1 : ℤ) else 15)) : ℤ) : ℚ) + sel.w)).h := h0h
  have hRw : (sel.setRight
      ((1 / dpr) * (((tx + (if shift then (1 : ℤ) else 15)) : ℤ) : ℚ) + sel.w)).w
      = sel.w + (if shift then (1 : ℚ) else 15) / dpr := by
    unfold RectF.setRight
    dsimp only
    rw [hx, ← hstepq]
    push_cast
    ring
  refine ⟨⟨?_, ?_, ?_, ?_⟩, ⟨?_, ?_, ?_, ?_⟩, ⟨?_, ?_, ?_, ?_⟩, ⟨?_, ?_, ?_, ?_⟩,
    ⟨?_, ?_, ?_, ?_⟩, ⟨?_, ?_, ?_, ?_⟩, ⟨?_, ?_, ?_, ?_⟩, ⟨?_, ?_, ?_, ?_⟩, ?_⟩
  · rw [hUp]
    unfold RectF.moveTop
    dsimp only
    rw [← hstepq]
    push_cast
    field_simp
  · rw [hUp]; rfl
  · rw [hUp]; rfl
  · rw [hUp]; rfl
  · rw [hUpA, RectF.normalized_of_nonneg hwn hhn]; rfl
  · rw [hUpA, RectF.normalized_of_nonneg hwn hhn]; rfl
  · rw [hUpA, RectF.normalized_of_nonneg hwn hhn]; rfl
  · rw [hUpA, RectF.normalized_of_nonneg hwn hhn, hBh]
    field_simp
  · rw [hDown]
    unfold RectF.moveTop
    dsimp only
    rw [← hstepq]
    push_cast
    field_simp
  · rw [hDown]; rfl
  · rw [hDown]; rfl
  · rw [hDown]; rfl
  · rw [hDownA]; rfl
  · rw [hDownA]; rfl
  · rw [hDownA]; rfl
  · rw [hDownA, hDh]
    field_simp
  · rw [hLeft]
    unfold RectF.moveLeft
    dsimp only
    rw [← hstepq]
    push_cast
    field_simp
  · rw [hLeft]; rfl
  · rw [hLeft]; rfl
  · rw [hLeft]; rfl
  · rw [hLeftA, RectF.normalized_of_nonneg hwn2 hhn2]; rfl
  · rw [hLeftA, RectF.normalized_of_nonneg hwn2 hhn2]; rfl
  · rw [hLeftA, RectF.normalized_of_nonneg hwn2 hhn2]; rfl
  · rw [hLeftA, RectF.normalized_of_nonneg hwn2 hhn2, hLw]
    field_simp
  · rw [hRight]
    unfold RectF.moveLeft
    dsimp only
    rw [← hstepq]
    push_cast
    field_simp
  · rw [hRight]; rfl
  · rw [hRight]; rfl
  · rw [hRight]; rfl
  · rw [hRightA]; rfl
  · rw [hRightA]; rfl
  · rw [hRightA]; rfl
  · rw [hRightA, hRw]
    field_simp
  · intro k alt
    cases k <;> simp [keyArrow]

/-- Witness for C4 amended: dpr 2, selection `(20,10,10,20)` (edges at
device coordinates 40/20, extents 20/40 device px, canvas 1000×800): each
arrow key steps its edge by exactly 15 device pixels, and all keys are
inert while a drag is in progress. -/
theorem arrowKey_step_witness :
    ((keyArrow 1000 800 2 false false false .up ⟨20, 10, 10, 20⟩).y * 2
        = (20 : ℚ) - (if false then (1 : ℚ) else 15)) ∧
    ((keyArrow 1000 800 2 false false true .up ⟨20, 10, 10, 20⟩).h * 2
        = (20 : ℚ) * 2 - (if false then (1 : ℚ) else 15)) ∧
    ((keyArrow 1000 800 2 false false false .down ⟨20, 10, 10, 20⟩).y * 2
        = (20 : ℚ) + (if false then (1 : ℚ) else 15)) ∧
    ((keyArrow 1000 800 2 false false true .down ⟨20, 10, 10, 20⟩).h * 2
        = (20 : ℚ) * 2 + (if false then (1 : ℚ) else 15)) ∧
    ((keyArrow 1000 800 2 false false false .left ⟨20, 10, 10, 20⟩).x * 2
        = (40 : ℚ) - (if false then (1 : ℚ) else 15)) ∧
    ((keyArrow 1000 800 2 false false true .left ⟨20, 10, 10, 20⟩).w * 2
        = (10 : ℚ) * 2 - (if false then (1 : ℚ) else 15)) ∧
    ((keyArrow 1000 800 2 false false false .right ⟨20, 10, 10, 20⟩).x * 2
        = (40 : ℚ) + (if false then (1 : ℚ) else 15)) ∧
    ((keyArrow 1000 800 2 false false true .right ⟨20, 10, 10, 20⟩).w * 2
        = (10 : ℚ) * 2 + (if false then (1 : ℚ) else 15)) ∧
    (∀ (k : ArrowKey) (alt : Bool),
      keyArrow 1000 800 2 true false alt k ⟨20, 10, 10, 20⟩ = ⟨20, 10, 10, 20⟩) := by
  have hdown : (20 : ℤ) + 15 ≤ realMaxY 800 2 ⟨20, 10, 10, 20⟩ := by
    unfold realMaxY qRound
    rw [if_pos (by norm_num)]
    norm_num
  have hright : (40 : ℤ) + 15 ≤ realMaxX 1000 2 ⟨20, 10, 10, 20⟩ := by
    unfold realMaxX qRound
    rw [if_pos (by norm_num)]
    norm_num
  have h := arrowKey_step_device_pixels 1000 800 2 (by norm_num) ⟨20, 10, 10, 20⟩
    false 20 40 (by norm_num) (by norm_num) (by norm_num) (by norm_num)
    hdown hright (by norm_num) (by norm_num)
  exact ⟨h.1.1, h.2.1.2.2.2, h.2.2.1.1, h.2.2.2.1.2.2.2, h.2.2.2.2.1.1,
    h.2.2.2.2.2.1.2.2.2, h.2.2.2.2.2.2.1.1, h.2.2.2.2.2.2.2.1.2.2.2,
    h.2.2.2.2.2.2.2.2⟩

/-- Helper: the composed horizontal clamp of the `Inside` move handler
(`boundsLeft`, then — when the result is nonzero — `boundsRight`) lands in
`[0, M]` whenever `0 ≤ M`. -/
theorem clampCombo_bounds (dprI sx : ℚ) (a M : ℤ) (hM : 0 ≤ M) :
    0 ≤ (if (boundsLeft dprI sx a true).1 ≠ 0
        then boundsRight dprI M (boundsLeft dprI sx a true).2
          (boundsLeft dprI sx a true).1 true
        else boundsLeft dprI sx a true).1 ∧
    (if (boundsLeft dprI sx a true).1 ≠ 0
        then boundsRight dprI M (boundsLeft dprI sx a true).2
          (boundsLeft dprI sx a true).1 true
        else boundsLeft dprI sx a true).1 ≤ M := by
  have hbl : (boundsLeft dprI sx a true).1 = if a < 0 then 0 else a := by
    unfold boundsLeft
    split <;> rfl
  have hbr : (boundsRight dprI M (boundsLeft dprI sx a true).2
      (boundsLeft dprI sx a true).1 true).1
      = if 0 < (boundsLeft dprI sx a true).1 - M then M
        else (boundsLeft dprI sx a true).1 := by
    unfold boundsRight
    dsimp only
    split <;> rfl
  by_cases hz : (boundsLeft dprI sx a true).1 ≠ 0
  · rw [if_pos hz, hbr, hbl]
    rw [hbl] at hz
    split_ifs at hz ⊢ <;> omega
  · rw [if_neg hz]
    rw [not_not] at hz
    exact ⟨le_of_eq hz.symm, hz ▸ hM⟩

theorem moveInside_x (W H : ℤ) (dpr : ℚ) (sel : RectF) (sp itl pos : PointF) :
    ((moveInside W H dpr sel sp itl pos).1).x
      = ((if (boundsLeft (1/dpr) sp.x (qRound ((pos.x - sp.x + itl.x) * dpr)) true).1 ≠ 0
          then boundsRight (1/dpr) (realMaxX W dpr sel)
            (boundsLeft (1/dpr) sp.x (qRound ((pos.x - sp.x + itl.x) * dpr)) true).2
            (boundsLeft (1/dpr) sp.x (qRound ((pos.x - sp.x + itl.x) * dpr)) true).1 true
          else boundsLeft (1/dpr) sp.x (qRound ((pos.x - sp.x + itl.x) * dpr)) true).1 : ℤ)
        * (1/dpr) := rfl

theorem moveInside_y (W H : ℤ) (dpr : ℚ) (sel : RectF) (sp itl pos : PointF) :
    ((moveInside W H dpr sel sp itl pos).1).y
      = ((if (boundsUp (1/dpr) sp.y (qRound ((pos.y - sp.y + itl.y) * dpr)) true).1 ≠ 0
          then boundsDown (1/dpr) (realMaxY H dpr sel)
            (boundsUp (1/dpr) sp.y (qRound ((pos.y - sp.y + itl.y) * dpr)) true).2
            (boundsUp (1/dpr) sp.y (qRound ((pos.y - sp.y + itl.y) * dpr)) true).1 true
          else boundsUp (1/dpr) sp.y (qRound ((pos.y - sp.y + itl.y) * dpr)) true).1 : ℤ)
        * (1/dpr) := rfl

/-- Helper: the vertical clamp analogue of `clampCombo_bounds`. -/
theorem clampComboV_bounds (dprI sy : ℚ) (a M : ℤ) (hM : 0 ≤ M) :
    0 ≤ (if (boundsUp dprI sy a true).1 ≠ 0
        then boundsDown dprI M (boundsUp dprI sy a true).2
          (boundsUp dprI sy a true).1 true
        else boundsUp dprI sy a true).1 ∧
    (if (boundsUp dprI sy a true).1 ≠ 0
        then boundsDown dprI M (boundsUp dprI sy a true).2
          (boundsUp dprI sy a true).1 true
        else boundsUp dprI sy a true).1 ≤ M := by
  have hbl : (boundsUp dprI sy a true).1 = if a < 0 then 0 else a := by
    unfold boundsUp
    split <;> rfl
  have hbr : (boundsDown dprI M (boundsUp dprI sy a true).2
      (boundsUp dprI sy a true).1 true).1
      = if 0 < (boundsUp dprI sy a true).1 - M then M
        else (boundsUp dprI sy a true).1 := by
    unfold boundsDown
    dsimp only
    split <;> rfl
  by_cases hz : (boundsUp dprI sy a true).1 ≠ 0
  · rw [if_pos hz, hbr, hbl]
    rw [hbl] at hz
    split_ifs at hz ⊢ <;> omega
  · rw [if_neg hz]
    rw [not_not] at hz
    exact ⟨le_of_eq hz.symm, hz ▸ hM⟩

/-- C1 counterexample: a creating (`Outside`-state) move event applies no
clamping: with dpr 1 and anchor `(50,50)`, a grabbed-pointer move to
`(-10,50)` puts the selection's device-space projection outside the canvas
`[0,0]-[1000,800]` (its left edge is `-10`). -/
theorem createMove_escapes_canvas :
    ¬ deviceContained 1 1000 800 (moveOutside 1 ⟨50, 50⟩ ⟨-10, 50⟩) := by
  norm_num [deviceContained, moveOutside, qMin]

/-- C1 amended: containment holds for the Dragging (`Inside`) mode only,
and there in the following form: whenever the selection fits in the widget
(`0 ≤ realMaxX` and `0 ≤ realMaxY`), the selection top-left after the move
is clamped to `[0, realMaxX] × [0, realMaxY]` in device space, the size is
unchanged, and the device-space right/bottom edges exceed the canvas by at
most the half-pixel introduced by `qRound`.  Creating and resizing moves
are not clamped at all (see the counterexample). -/
theorem dragMove_clamped_to_canvas (W H : ℤ) (dpr : ℚ) (hdpr : 0 < dpr)
    (sel : RectF) (sp itl pos : PointF)
    (hMx : 0 ≤ realMaxX W dpr sel) (hMy : 0 ≤ realMaxY H dpr sel) :
    0 ≤ ((moveInside W H dpr sel sp itl pos).1).x * dpr ∧
    ((moveInside W H dpr sel sp itl pos).1).x * dpr ≤ (realMaxX W dpr sel : ℚ) ∧
    0 ≤ ((moveInside W H dpr sel sp itl pos).1).y * dpr ∧
    ((moveInside W H dpr sel sp itl pos).1).y * dpr ≤ (realMaxY H dpr sel : ℚ) ∧
    ((moveInside W H dpr sel sp itl pos).1).w = sel.w ∧
    ((moveInside W H dpr sel sp itl pos).1).h = sel.h ∧
    (((moveInside W H dpr sel sp itl pos).1).x + sel.w) * dpr ≤ (W : ℚ) * dpr + 1/2 ∧
    (((moveInside W H dpr sel sp itl pos).1).y + sel.h) * dpr ≤ (H : ℚ) * dpr + 1/2 := by
  have hdne : dpr ≠ 0 := ne_of_gt hdpr
  obtain ⟨hx0, hx1⟩ := clampCombo_bounds (1/dpr) sp.x
    (qRound ((pos.x - sp.x + itl.x) * dpr)) (realMaxX W dpr sel) hMx
  obtain ⟨hy0, hy1⟩ := clampComboV_bounds (1/dpr) sp.y
    (qRound ((pos.y - sp.y + itl.y) * dpr)) (realMaxY H dpr sel) hMy
  have hxd : ((moveInside W H dpr sel sp itl pos).1).x * dpr
      = ((if (boundsLeft (1/dpr) sp.x (qRound ((pos.x - sp.x + itl.x) * dpr)) true).1 ≠ 0
          then boundsRight (1/dpr) (realMaxX W dpr sel)
            (boundsLeft (1/dpr) sp.x (qRound ((pos.x - sp.x + itl.x) * dpr)) true).2
            (boundsLeft (1/dpr) sp.x (qRound ((pos.x - sp.x + itl.x) * dpr)) true).1 true
          else boundsLeft (1/dpr) sp.x (qRound ((pos.x - sp.x + itl.x) * dpr)) true).1 : ℤ) := by
    rw [moveInside_x]
    field_simp
  have hyd : ((moveInside W H dpr sel sp itl pos).1).y * dpr
      = ((if (boundsUp (1/dpr) sp.y (qRound ((pos.y - sp.y + itl.y) * dpr)) true).1 ≠ 0
          then boundsDown (1/dpr) (realMaxY H dpr sel)
            (boundsUp (1/dpr) sp.y (qRound ((pos.y - sp.y + itl.y) * dpr)) true).2
            (boundsUp (1/dpr) sp.y (qRound ((pos.y - sp.y + itl.y) * dpr)) true).1 true
          else boundsUp (1/dpr) sp.y (qRound ((pos.y - sp.y + itl.y) * dpr)) true).1 : ℤ) := by
    rw [moveInside_y]
    field_simp
  have hMxq : ((realMaxX W dpr sel : ℤ) : ℚ) ≤ ((W : ℚ) - sel.w) * dpr + 1/2 :=
    qRound_le (((W : ℚ) - sel.w) * dpr)
  have hMyq : ((realMaxY H dpr sel : ℤ) : ℚ) ≤ ((H : ℚ) - sel.h) * dpr + 1/2 :=
    qRound_le (((H : ℚ) - sel.h) * dpr)
  refine ⟨?_, ?_, ?_, ?_, rfl, rfl, ?_, ?_⟩
  · rw [hxd]; exact_mod_cast hx0
  · rw [hxd]; exact_mod_cast hx1
  · rw [hyd]; exact_mod_cast hy0
  · rw [hyd]; exact_mod_cast hy1
  · have hexp : (((moveInside W H dpr sel sp itl pos).1).x + sel.w) * dpr
        = ((moveInside W H dpr sel sp itl pos).1).x * dpr + sel.w * dpr := by ring
    have hexp2 : ((W : ℚ) - sel.w) * dpr = (W : ℚ) * dpr - sel.w * dpr := by ring
    have hc : ((moveInside W H dpr sel sp itl pos).1).x * dpr
        ≤ ((realMaxX W dpr sel : ℤ) : ℚ) := by
      rw [hxd]; exact_mod_cast hx1
    rw [hexp]
    linarith
  · have hexp : (((moveInside W H dpr sel sp itl pos).1).y + sel.h) * dpr
        = ((moveInside W H dpr sel sp itl pos).1).y * dpr + sel.h * dpr := by ring
    have hexp2 : ((H : ℚ) - sel.h) * dpr = (H : ℚ) * dpr - sel.h * dpr := by ring
    have hc : ((moveInside W H dpr sel sp itl pos).1).y * dpr
        ≤ ((realMaxY H dpr sel : ℤ) : ℚ) := by
      rw [hyd]; exact_mod_cast hy1
    rw [hexp]
    linarith

/-- Witness for C1 amended: canvas 1000×800, dpr 1, selection 100×100 at
`(10,10)`, drag anchor `(60,60)`, press-time top-left `(10,10)`, pointer
moved to `(-500, 70)`: the clamped top-left obeys the bounds. -/
theorem dragMove_clamped_witness :
    (0 ≤ realMaxX 1000 1 ⟨10, 10, 100, 100⟩ ∧ 0 ≤ realMaxY 800 1 ⟨10, 10, 100, 100⟩) ∧
    (0 ≤ ((moveInside 1000 800 1 ⟨10, 10, 100, 100⟩ ⟨60, 60⟩ ⟨10, 10⟩ ⟨-500, 70⟩).1).x * 1 ∧
      ((moveInside 1000 800 1 ⟨10, 10, 100, 100⟩ ⟨60, 60⟩ ⟨10, 10⟩ ⟨-500, 70⟩).1).x * 1
        ≤ (realMaxX 1000 1 ⟨10, 10, 100, 100⟩ : ℚ)) := by
  have hMx : 0 ≤ realMaxX 1000 1 ⟨10, 10, 100, 100⟩ := by
    unfold realMaxX qRound
    rw [if_pos (by norm_num)]
    norm_num
  have hMy : 0 ≤ realMaxY 800 1 ⟨10, 10, 100, 100⟩ := by
    unfold realMaxY qRound
    rw [if_pos (by norm_num)]
    norm_num
  have h := dragMove_clamped_to_canvas 1000 800 1 (by norm_num)
    ⟨10, 10, 100, 100⟩ ⟨60, 60⟩ ⟨10, 10⟩ ⟨-500, 70⟩ hMx hMy
  exact ⟨⟨hMx, hMy⟩, h.1, h.2.1⟩

end Spectacle
